import Mathlib

/-!
Verification of the tornado-cli client (`tornado.js`).

This file shallowly embeds the commitment/nullifier lifecycle engine of the
client: the commitment codec (`createDeposit`, note encoding and decoding),
the Merkle accumulator rebuilt from ledger events, the proof-request
assembler (`generateProof`), the relayed withdrawal flow (`withdrawRelay`)
and the confirmation polling loop (`waitForTxReceipt`).

Conventions of the embedding:
* JavaScript strings become `List Char`; JS byte buffers become `List Nat`
  with every entry below 256.
* The opaque hash collaborators are parameters: `Hp : List Nat → Nat` stands
  for the pedersen hash over byte strings, `Ht : Nat → Nat → Nat` for the
  two-child hasher used inside the Merkle tree, and `prove` for the opaque
  zero-knowledge proof backend.
* Asynchronous effects are turned into explicit data: the ledger becomes a
  record of its event list and its `isKnownRoot` / `isSpent` oracles, and the
  receipt-polling chain state becomes a function from query index to the
  receipt returned by that query.
* `Except TornadoError` materialises the failure taxonomy which the source
  expresses through `assert` messages and rejected promises.
-/

namespace Tornado

/-- The error taxonomy of the client.  In `tornado.js` these are the
`assert` messages of `generateMerkleProof`, the relay network check, the
CLI note-format validation and the `tx was not mined` rejection. -/
inductive TornadoError where
  | MalformedNote
  | TreeCorrupted
  | AlreadySpent
  | NotFound
  | NetworkMismatch
  | ConfirmationTimeout
  deriving DecidableEq, Repr

/-! ## Bytes and little-endian scalars (snarkjs `leInt2Buff` / `leBuff2int`) -/

/-- `bigInt.leInt2Buff(n, len)`: the little-endian byte buffer of fixed
length `len` holding `n` (least significant byte first). -/
def leInt2Buff : Nat → Nat → List Nat
  | _, 0 => []
  | n, len + 1 => n % 256 :: leInt2Buff (n / 256) len

/-- `bigInt.leBuff2int(buf)`: decode a little-endian byte buffer. -/
def leBuff2int : List Nat → Nat
  | [] => 0
  | b :: rest => b + 256 * leBuff2int rest

/-! ## Hex strings -/

/-- Lowercase hex digit, as produced by `toString(16)` / `Buffer.toString('hex')`. -/
def hexDigitChar (d : Nat) : Char :=
  if d < 10 then Char.ofNat (48 + d) else Char.ofNat (87 + d)

/-- Numeric value of a hex digit character (either case); 0 on other input. -/
def hexVal (c : Char) : Nat :=
  if 48 ≤ c.toNat ∧ c.toNat ≤ 57 then c.toNat - 48
  else if 97 ≤ c.toNat ∧ c.toNat ≤ 102 then c.toNat - 87
  else if 65 ≤ c.toNat ∧ c.toNat ≤ 70 then c.toNat - 55
  else 0

/-- Membership test for the regex character class `[0-9a-fA-F]`. -/
def isHexDigitChar (c : Char) : Bool :=
  (decide (48 ≤ c.toNat) && decide (c.toNat ≤ 57)) ||
  (decide (97 ≤ c.toNat) && decide (c.toNat ≤ 102)) ||
  (decide (65 ≤ c.toNat) && decide (c.toNat ≤ 70))

/-- `Buffer.toString('hex')`: two lowercase hex characters per byte,
high nibble first. -/
def bytesToHex : List Nat → List Char
  | [] => []
  | b :: rest => hexDigitChar (b / 16) :: hexDigitChar (b % 16) :: bytesToHex rest

/-- `Buffer.from(str, 'hex')`: consume the characters two at a time,
each pair becoming one byte. -/
def hexPairsToBytes : List Char → List Nat
  | c1 :: c2 :: rest => (16 * hexVal c1 + hexVal c2) :: hexPairsToBytes rest
  | _ => []

/-- Little-endian base-16 digits of `n` (least significant first), computed
with an explicit fuel argument so that the definition is structural; any
fuel of at least `n` is exact. -/
def hexDigitsLE : Nat → Nat → List Nat
  | 0, _ => []
  | fuel + 1, n => if n = 0 then [] else n % 16 :: hexDigitsLE fuel (n / 16)

/-- `bigInt(n).toString(16)`: minimal hex representation of `n`, lowercase,
`"0"` for zero. -/
def hexRep (n : Nat) : List Char :=
  if n = 0 then ['0'] else ((hexDigitsLE n n).map hexDigitChar).reverse

/-- JS `String.prototype.padStart(target, c)`: left-pad to `target`
characters; strings already at least that long are returned unchanged. -/
def padStart (s : List Char) (target : Nat) (c : Char) : List Char :=
  List.replicate (target - s.length) c ++ s

/-- `toHex(number, length)` of `tornado.js` (number branch):
`'0x' + bigInt(number).toString(16).padStart(length * 2, '0')`. -/
def toHex (n : Nat) (len : Nat) : List Char :=
  '0' :: 'x' :: padStart (hexRep n) (2 * len) '0'

/-- `toHex(buffer, length)` of `tornado.js` (Buffer branch):
`'0x' + buffer.toString('hex').padStart(length * 2, '0')`. -/
def toHexBuf (bs : List Nat) (len : Nat) : List Char :=
  '0' :: 'x' :: padStart (bytesToHex bs) (2 * len) '0'

/-- Big-endian fold of hex digit characters into a number. -/
def parseHexDigits (s : List Char) : Nat :=
  s.foldl (fun a c => 16 * a + hexVal c) 0

/-- Numeric value of a `'0x…'` hex string (used where the source lets
`bigInt` absorb an address or commitment string). -/
def hexToNat (s : List Char) : Nat :=
  parseHexDigits (s.drop 2)

/-! ## Commitment codec -/

/-- The deposit object assembled by `createDeposit`. -/
structure Deposit where
  nullifier : Nat
  secret : Nat
  preimage : List Nat
  commitment : Nat
  nullifierHash : Nat
  deriving DecidableEq, Repr

/-- `createDeposit(nullifier, secret)` (tornado.js lines 44–50):
`preimage = nullifier.leInt2Buff(31) ++ secret.leInt2Buff(31)`,
`commitment = pedersenHash(preimage)`,
`nullifierHash = pedersenHash(nullifier.leInt2Buff(31))`,
with the pedersen hash kept opaque as the parameter `Hp`. -/
def createDeposit (Hp : List Nat → Nat) (nullifier secret : Nat) : Deposit :=
  { nullifier := nullifier
    secret := secret
    preimage := leInt2Buff nullifier 31 ++ leInt2Buff secret 31
    commitment := Hp (leInt2Buff nullifier 31 ++ leInt2Buff secret 31)
    nullifierHash := Hp (leInt2Buff nullifier 31) }

/-- The note printed by `deposit()` (line 62): `toHex(deposit.preimage, 62)`. -/
def encodeNote (preimage : List Nat) : List Char :=
  toHexBuf preimage 62

/-- The note format check of `runConsole` (line 293): the regex
`^0x[0-9a-fA-F]{124}$`, i.e. exactly 126 characters, a literal `0x` head,
and 124 hex-digit characters. -/
def noteFormatOk (note : List Char) : Bool :=
  note.length == 126 && note.take 2 == ['0', 'x'] && (note.drop 2).all isHexDigitChar

/-- The note decoding of `generateProof` (lines 109–110): strip `0x`, parse
the hex pairs into bytes, split into two 31-byte little-endian scalars and
rebuild the deposit through `createDeposit`. -/
def depositFromNote (Hp : List Nat → Nat) (note : List Char) : Deposit :=
  createDeposit Hp
    (leBuff2int ((hexPairsToBytes (note.drop 2)).take 31))
    (leBuff2int ((hexPairsToBytes (note.drop 2)).drop 31))

/-- The composite note-decoding pipeline of the client: the CLI regex
validation (line 293) guarding the byte-splitting reconstruction of
`generateProof` (lines 109–110). -/
def decodeNote (Hp : List Nat → Nat) (note : List Char) : Except TornadoError Deposit :=
  if noteFormatOk note then .ok (depositFromNote Hp note)
  else .error .MalformedNote

/-! ## Merkle accumulator

The tree implementation lives in `lib/MerkleTree`, which is not part of the
sources at hand; it is modelled from the spec. -/

/-- `MERKLE_TREE_HEIGHT` (tornado.js line 18). -/
def MERKLE_TREE_HEIGHT : Nat := 20

/-- Modelled from the spec: the canonical zero value of level `i` of the
accumulator — level 0 uses the fixed zero-leaf `zeroV`, and each higher
level's zero value is the hash of two copies of the one below. -/
def zeros (Ht : Nat → Nat → Nat) (zeroV : Nat) : Nat → Nat
  | 0 => zeroV
  | i + 1 => Ht (zeros Ht zeroV i) (zeros Ht zeroV i)

/-- Modelled from the spec: one level-up step of the accumulator on the
occupied prefix of a level — node `k` is `H(level[2k], level[2k+1])`, an
absent right sibling standing for the level's zero value `z`. -/
def levelUp (Ht : Nat → Nat → Nat) (z : Nat) : List Nat → List Nat
  | [] => []
  | [a] => [Ht a z]
  | a :: b :: rest => Ht a b :: levelUp Ht z rest

/-- Modelled from the spec: root of the accumulator, folding `levelUp` over
`h` levels starting from the occupied prefix `L` of level `i`; an empty
prefix denotes a fully zero-padded subtree. -/
def rootAux (Ht : Nat → Nat → Nat) (zeroV : Nat) : Nat → Nat → List Nat → Nat
  | 0, i, L => L.headD (zeros Ht zeroV i)
  | h + 1, i, L => rootAux Ht zeroV h (i + 1) (levelUp Ht (zeros Ht zeroV i) L)

/-- `Root()` of a tree of height `h` built from `leaves` (missing positions
up to `2^h` padded with the zero value). -/
def treeRootH (Ht : Nat → Nat → Nat) (zeroV : Nat) (h : Nat) (leaves : List Nat) : Nat :=
  rootAux Ht zeroV h 0 leaves

/-- Modelled from the spec: authentication path of leaf `idx` — for each of
the `h` levels, the sibling node (the level's zero value when the sibling
position is unoccupied) and the side bit `idx % 2` of the current node. -/
def pathAux (Ht : Nat → Nat → Nat) (zeroV : Nat) :
    Nat → Nat → List Nat → Nat → List Nat × List Nat
  | 0, _, _, _ => ([], [])
  | h + 1, i, L, idx =>
    let sib := L.getD (if idx % 2 = 0 then idx + 1 else idx - 1) (zeros Ht zeroV i)
    let rest := pathAux Ht zeroV h (i + 1) (levelUp Ht (zeros Ht zeroV i) L) (idx / 2)
    (sib :: rest.1, idx % 2 :: rest.2)

/-- The record returned by `tree.path(leafIndex)` and destructured by
`generateProof` (line 113): root, sibling list and side-bit list. -/
structure PathData where
  root : Nat
  path_elements : List Nat
  path_index : List Nat
  deriving DecidableEq, Repr

/-- `tree.path(leafIndex)` for the fixed-height tree over `leaves`. -/
def treePathH (Ht : Nat → Nat → Nat) (zeroV : Nat) (h : Nat) (leaves : List Nat)
    (idx : Nat) : PathData :=
  { root := treeRootH Ht zeroV h leaves
    path_elements := (pathAux Ht zeroV h 0 leaves idx).1
    path_index := (pathAux Ht zeroV h 0 leaves idx).2 }

/-- Recombination of a leaf with an authentication path: hash upward, the
side bit telling whether the current node is the left (`0`) or the right
(`1`) child. -/
def recombine (Ht : Nat → Nat → Nat) : Nat → List Nat → List Nat → Nat
  | cur, [], _ => cur
  | cur, _ :: _, [] => cur
  | cur, e :: es, b :: bs =>
    recombine Ht (if b = 0 then Ht cur e else Ht e cur) es bs

/-! The spec's conceptual construction for comparison: level 0 is the leaf
list literally padded with the zero value to width `2^h`, and each level is
the pairwise hash of the one below. -/

/-- One conceptual level: node `k = H(level[2k], level[2k+1])` over a level
of even width. -/
def hashLevel (Ht : Nat → Nat → Nat) : List Nat → List Nat
  | a :: b :: rest => Ht a b :: hashLevel Ht rest
  | _ => []

/-- Iterate `hashLevel` `h` times. -/
def iterLevels (Ht : Nat → Nat → Nat) : Nat → List Nat → List Nat
  | 0, L => L
  | h + 1, L => iterLevels Ht h (hashLevel Ht L)

/-- Level 0 of the conceptual tree: the leaves padded to width `2^h`. -/
def paddedLeaves (zeroV : Nat) (h : Nat) (leaves : List Nat) : List Nat :=
  leaves ++ List.replicate (2 ^ h - leaves.length) zeroV

/-- Modelled from the spec: the conceptual root — the hash-tree reduction of
the zero-padded width-`2^h` leaf level. -/
def conceptualRoot (Ht : Nat → Nat → Nat) (zeroV : Nat) (h : Nat) (leaves : List Nat) : Nat :=
  (iterLevels Ht h (paddedLeaves zeroV h leaves)).headD zeroV

/-- Root at the protocol height. -/
def treeRoot (Ht : Nat → Nat → Nat) (zeroV : Nat) (leaves : List Nat) : Nat :=
  treeRootH Ht zeroV MERKLE_TREE_HEIGHT leaves

/-- Path at the protocol height. -/
def treePath (Ht : Nat → Nat → Nat) (zeroV : Nat) (leaves : List Nat) (idx : Nat) : PathData :=
  treePathH Ht zeroV MERKLE_TREE_HEIGHT leaves idx

/-! ## Chain state reconstruction (`generateMerkleProof`) -/

/-- A `Deposit` event log entry: ledger-assigned leaf index and the
commitment hex string carried in `returnValues`. -/
structure DepositEvent where
  leafIndex : Nat
  commitment : List Char
  deriving DecidableEq, Repr

/-- Stable insertion of an event into a list sorted by `leafIndex`
(an earlier-delivered event goes before later ones with the same index). -/
def insertEvent (e : DepositEvent) : List DepositEvent → List DepositEvent
  | [] => [e]
  | f :: rest =>
    if e.leafIndex ≤ f.leafIndex then e :: f :: rest else f :: insertEvent e rest

/-- `events.sort((a, b) => a.returnValues.leafIndex - b.returnValues.leafIndex)`
(line 79): the stable ascending sort by `leafIndex`. -/
def sortEvents : List DepositEvent → List DepositEvent
  | [] => []
  | e :: rest => insertEvent e (sortEvents rest)

/-- The leaf sequence handed to the tree constructor (lines 78–80): events
sorted by `leafIndex`, each commitment hex string read as its numeric
value. -/
def eventLeaves (events : List DepositEvent) : List Nat :=
  (sortEvents events).map (fun e => hexToNat e.commitment)

/-- The ledger collaborator: the past `Deposit` events plus the
`isKnownRoot` and `isSpent` view functions (both called on `toHex` strings,
as in the source). -/
structure Ledger where
  events : List DepositEvent
  isKnownRoot : List Char → Bool
  isSpent : List Char → Bool

/-- Lines 84–85: `events.find(e => e.returnValues.commitment === toHex(commitment))`
on the unsorted event list, yielding the event's `leafIndex` or the `-1`
sentinel. -/
def findLeafIndex (events : List DepositEvent) (target : List Char) : Int :=
  match events.find? (fun e => e.commitment == target) with
  | some e => Int.ofNat e.leafIndex
  | none => -1

/-- `generateMerkleProof(contract, deposit)` (lines 74–96): sort the events,
build the tree, locate the commitment in the *unsorted* event list by
comparing hex strings, then assert in order: the reconstructed root is
known to the ledger, the nullifier hash is not spent, and the leaf was
found; finally return `tree.path(leafIndex)`. -/
def generateMerkleProof (Ht : Nat → Nat → Nat) (zeroV : Nat) (ledger : Ledger)
    (deposit : Deposit) : Except TornadoError PathData :=
  let leaves := eventLeaves ledger.events
  let leafIndex : Int := findLeafIndex ledger.events (toHex deposit.commitment 32)
  if !(ledger.isKnownRoot (toHex (treeRoot Ht zeroV leaves) 32)) then
    .error .TreeCorrupted
  else if ledger.isSpent (toHex deposit.nullifierHash 32) then
    .error .AlreadySpent
  else if leafIndex < (0 : Int) then
    .error .NotFound
  else
    .ok (treePath Ht zeroV leaves leafIndex.toNat)

/-! ## Proof request assembly (`generateProof`) -/

/-- The circuit input record of `generateProof` (lines 116–130). -/
structure CircuitInput where
  root : Nat
  nullifierHash : Nat
  recipient : Nat
  relayer : Nat
  fee : Nat
  refund : Nat
  nullifier : Nat
  secret : Nat
  pathElements : List Nat
  pathIndices : List Nat

/-- The result of `generateProof`: the opaque proof blob and the six
fixed-width hex call arguments (lines 138–145). -/
structure ProofArgs where
  proof : Nat
  args : List (List Char)
  deriving DecidableEq, Repr

/-- `generateProof(contract, note, recipient, relayer, fee, refund)`
(lines 107–148): decode the note, build the Merkle proof, assemble the
circuit input, call the opaque proof backend and format the ledger call
arguments. -/
def generateProof (Hp : List Nat → Nat) (Ht : Nat → Nat → Nat) (zeroV : Nat)
    (prove : CircuitInput → Nat) (ledger : Ledger) (note : List Char)
    (recipient relayer fee refund : Nat) : Except TornadoError ProofArgs :=
  let deposit := depositFromNote Hp note
  (generateMerkleProof Ht zeroV ledger deposit).map (fun pd =>
    let input : CircuitInput :=
      { root := pd.root
        nullifierHash := deposit.nullifierHash
        recipient := recipient
        relayer := relayer
        fee := fee
        refund := refund
        nullifier := deposit.nullifier
        secret := deposit.secret
        pathElements := pd.path_elements
        pathIndices := pd.path_index }
    { proof := prove input
      args := [toHex input.root 32, toHex input.nullifierHash 32,
               toHex input.recipient 20, toHex input.relayer 20,
               toHex input.fee 32, toHex input.refund 32] })

/-! ## Relayed withdrawal (`withdrawRelay`) -/

/-- The relay `/status` response `{relayerAddress, netId, gasPrices}`,
with the address as its numeric value, the network id as the raw string
(possibly `"*"`), and the quoted fast gas price in gwei. -/
structure RelayStatus where
  relayerAddress : Nat
  netId : List Char
  gasPricesFast : Nat
  deriving DecidableEq, Repr

/-- The `/relay` POST body `{contract, proof: {proof, publicSignals}}`
(line 180). -/
structure RelayPost where
  contract : Nat
  proof : Nat
  publicSignals : List (List Char)
  deriving DecidableEq, Repr

/-- The relay fee (line 176):
`bigInt(toWei(gasPrices.fast.toString(), 'gwei')).mul(bigInt(1e6))`,
i.e. the fast gas price converted to wei (× 10⁹) times the fixed gas-cost
constant 1 000 000. -/
def computeRelayFee (status : RelayStatus) : Nat :=
  status.gasPricesFast * 10 ^ 9 * 1000000

/-- `withdrawRelay(note, recipient, relayUrl)` (lines 170–186) up to the
`/relay` POST: check `netId === ledgerNetId || netId === '*'`, compute the
fee, run `generateProof` with the relay's address and fee, and assemble the
POST body.  Receipt polling is modelled separately by `waitForTxReceipt`. -/
def withdrawRelay (Hp : List Nat → Nat) (Ht : Nat → Nat → Nat) (zeroV : Nat)
    (prove : CircuitInput → Nat) (ledger : Ledger) (contractAddr : Nat)
    (status : RelayStatus) (ledgerNetId : List Char) (note : List Char)
    (recipient : Nat) : Except TornadoError RelayPost :=
  if status.netId = ledgerNetId ∨ status.netId = ['*'] then
    let fee := computeRelayFee status
    (generateProof Hp Ht zeroV prove ledger note recipient status.relayerAddress fee
        0).map (fun pr =>
      { contract := contractAddr, proof := pr.proof, publicSignals := pr.args })
  else .error .NetworkMismatch

/-! ## Confirmation polling (`waitForTxReceipt`) -/

/-- A transaction receipt as far as the polling loop inspects it: its
(possibly absent) block number. -/
structure Receipt where
  blockNumber : Option Nat
  deriving DecidableEq, Repr

/-- JS truthiness of `result.blockNumber` (absent, `null` and `0` are
falsy). -/
def receiptHasBlock (r : Receipt) : Bool :=
  match r.blockNumber with
  | none => false
  | some b => b != 0

/-- Truthiness of `!result || !result.blockNumber`: the poll result counts
as "not mined yet". -/
def pollBad (o : Option Receipt) : Bool :=
  match o with
  | none => true
  | some r => !receiptHasBlock r

/-- `checkForTx(txHash, retryAttempt)` (lines 196–207): query the receipt;
if `!result || !result.blockNumber` retry while `retryAttempt <= attempts`
and reject with the timeout once the budget is exhausted, otherwise resolve
with the receipt (the `none` arm of the resolving branch is unreachable,
since `pollBad none` is `true`).  The chain is the function `poll` from
query index to the receipt returned by that query; `delay` only spaces the
queries in time and cannot affect the result. -/
def checkForTx (poll : Nat → Option Receipt) (attempts delay : Nat) :
    Nat → Except TornadoError Receipt
  | retryAttempt =>
    if pollBad (poll retryAttempt) then
      if _h : retryAttempt ≤ attempts then
        checkForTx poll attempts delay (retryAttempt + 1)
      else .error .ConfirmationTimeout
    else
      match poll retryAttempt with
      | some r => .ok r
      | none => .error .ConfirmationTimeout
  termination_by retryAttempt => attempts + 1 - retryAttempt
  decreasing_by all_goals omega

/-- `waitForTxReceipt(txHash, attempts, delay)` (lines 194–210): start the
recursive poll at `retryAttempt = 0`. -/
def waitForTxReceipt (poll : Nat → Option Receipt) (attempts delay : Nat) :
    Except TornadoError Receipt :=
  checkForTx poll attempts delay 0

/-! ## Concrete fixtures used to instantiate the theorems -/

/-- A concrete stand-in for the tree hasher of the fixtures.  It is
constant, so concrete evaluation of the height-20 tree never has to expand
the exponentially self-similar tower of zero-subtree hashes. -/
def htSample : Nat → Nat → Nat := fun _ _ => 0

/-- A constant stand-in for the pedersen hash, with value 7. -/
def hpSample : List Nat → Nat := fun _ => 7

/-- A ledger whose root oracle rejects everything while its nullifier
registry reports everything spent. -/
def spentUnknownRootLedger : Ledger :=
  { events := [], isKnownRoot := fun _ => false, isSpent := fun _ => true }

/-- A ledger whose root oracle accepts everything and whose nullifier
registry reports everything spent. -/
def spentKnownRootLedger : Ledger :=
  { events := [], isKnownRoot := fun _ => true, isSpent := fun _ => true }

/-- A one-deposit ledger holding the commitment `toHex 7 32` at leaf 0,
accepting every root and reporting nothing spent. -/
def sampleLedger : Ledger :=
  { events := [{ leafIndex := 0, commitment := toHex 7 32 }]
    isKnownRoot := fun _ => true
    isSpent := fun _ => false }

/-- A relay `/status` response quoting a fast gas price of 5 gwei on
network `"1"`. -/
def sampleStatus : RelayStatus :=
  { relayerAddress := 9, netId := ['1'], gasPricesFast := 5 }

/-- Two events sharing leaf index 0 but with different commitments. -/
def dupEventA : DepositEvent := { leafIndex := 0, commitment := ['0', 'x', '1'] }

/-- See `dupEventA`. -/
def dupEventB : DepositEvent := { leafIndex := 0, commitment := ['0', 'x', '2'] }

/-- An event at leaf index 0, distinct from `evHigh`. -/
def evLow : DepositEvent := { leafIndex := 0, commitment := ['0', 'x', '4'] }

/-- An event at leaf index 1, distinct from `evLow`. -/
def evHigh : DepositEvent := { leafIndex := 1, commitment := ['0', 'x', '3'] }

/-- The `/relay` POST body produced by the sample relayed withdrawal. -/
def sampleRelayBody : RelayPost :=
  match withdrawRelay hpSample htSample 0 (fun _ => 0) sampleLedger 3 sampleStatus
      ['1'] ['0', 'x'] 4 with
  | .ok b => b
  | .error _ => { contract := 0, proof := 0, publicSignals := [] }

/-! ## Byte-buffer and hex-string lemmas -/

theorem leInt2Buff_length (n len : Nat) : (leInt2Buff n len).length = len := by
  induction len generalizing n with
  | zero => rfl
  | succ k ih => simp [leInt2Buff, ih]

theorem leInt2Buff_lt (n len : Nat) : ∀ b ∈ leInt2Buff n len, b < 256 := by
  induction len generalizing n with
  | zero => simp [leInt2Buff]
  | succ k ih =>
    simp only [leInt2Buff, List.mem_cons]
    rintro b (rfl | hb)
    · exact Nat.mod_lt _ (by omega)
    · exact ih _ b hb

theorem leBuff2int_leInt2Buff (len n : Nat) :
    leBuff2int (leInt2Buff n len) = n % 256 ^ len := by
  induction len generalizing n with
  | zero => simp [leInt2Buff, leBuff2int, Nat.mod_one]
  | succ k ih =>
    have hpow : (256 : Nat) ^ (k + 1) = 256 * 256 ^ k := by
      rw [pow_succ, Nat.mul_comm]
    rw [leInt2Buff, leBuff2int, ih, hpow, Nat.mod_mul]

theorem pow256_31 : (256 : Nat) ^ 31 = 2 ^ 248 := by
  rw [show (256 : Nat) = 2 ^ 8 from rfl, ← pow_mul]

theorem hexVal_hexDigitChar : ∀ d : Nat, d < 16 → hexVal (hexDigitChar d) = d := by
  decide

theorem isHexDigitChar_hexDigitChar :
    ∀ d : Nat, d < 16 → isHexDigitChar (hexDigitChar d) = true := by
  decide

theorem bytesToHex_length (bs : List Nat) : (bytesToHex bs).length = 2 * bs.length := by
  induction bs with
  | nil => rfl
  | cons b rest ih => simp [bytesToHex, ih]; omega

theorem hexPairsToBytes_length (s : List Char) :
    (hexPairsToBytes s).length = s.length / 2 := by
  induction s using hexPairsToBytes.induct with
  | case1 c1 c2 rest ih => simp [hexPairsToBytes, ih]; omega
  | case2 s h => cases s with
    | nil => rfl
    | cons c rest =>
      cases rest with
      | nil => simp [hexPairsToBytes]
      | cons c2 rest2 => exact absurd rfl (h c c2 rest2)

theorem hexPairsToBytes_bytesToHex (bs : List Nat) (hb : ∀ b ∈ bs, b < 256) :
    hexPairsToBytes (bytesToHex bs) = bs := by
  induction bs with
  | nil => rfl
  | cons b rest ih =>
    have hblt : b < 256 := hb b (List.mem_cons_self ..)
    have h1 : b / 16 < 16 := by omega
    have h2 : b % 16 < 16 := Nat.mod_lt _ (by omega)
    rw [bytesToHex, hexPairsToBytes, hexVal_hexDigitChar _ h1, hexVal_hexDigitChar _ h2,
      ih (fun x hx => hb x (List.mem_cons_of_mem _ hx))]
    congr 1
    omega

theorem bytesToHex_all_hex (bs : List Nat) (hb : ∀ b ∈ bs, b < 256) :
    (bytesToHex bs).all isHexDigitChar = true := by
  induction bs with
  | nil => rfl
  | cons b rest ih =>
    have hblt : b < 256 := hb b (List.mem_cons_self ..)
    simp only [bytesToHex, List.all_cons, Bool.and_eq_true]
    refine ⟨isHexDigitChar_hexDigitChar _ (by omega), isHexDigitChar_hexDigitChar _ (Nat.mod_lt _ (by omega)), ?_⟩
    exact ih (fun x hx => hb x (List.mem_cons_of_mem _ hx))

theorem padStart_length (s : List Char) (t : Nat) (c : Char) :
    (padStart s t c).length = max t s.length := by
  simp [padStart]
  omega

theorem parseHexDigits_replicate_zero (k : Nat) (s : List Char) :
    parseHexDigits (List.replicate k '0' ++ s) = parseHexDigits s := by
  induction k with
  | zero => simp
  | succ m ih =>
    have h0 : hexVal '0' = 0 := by decide
    simp only [List.replicate_succ, List.cons_append, parseHexDigits, List.foldl_cons, h0,
      Nat.mul_zero, Nat.add_zero] at ih ⊢
    exact ih

theorem parseHexDigits_rev_digits (ds : List Nat) (h : ∀ d ∈ ds, d < 16) :
    parseHexDigits ((ds.map hexDigitChar).reverse) =
      ds.foldr (fun d acc => d + 16 * acc) 0 := by
  induction ds with
  | nil => rfl
  | cons d rest ih =>
    have hd : hexVal (hexDigitChar d) = d :=
      hexVal_hexDigitChar d (h d (List.mem_cons_self ..))
    have ih2 := ih (fun x hx => h x (List.mem_cons_of_mem _ hx))
    simp only [List.map_cons, List.reverse_cons, parseHexDigits, List.foldl_append,
      List.foldl_cons, List.foldl_nil, hd, List.foldr_cons] at ih2 ⊢
    omega

theorem hexDigitsLE_lt (fuel n : Nat) : ∀ d ∈ hexDigitsLE fuel n, d < 16 := by
  induction fuel generalizing n with
  | zero => simp [hexDigitsLE]
  | succ m ih =>
    intro d hd
    rw [hexDigitsLE] at hd
    by_cases hn : n = 0
    · simp [hn] at hd
    · simp only [hn, if_false, List.mem_cons] at hd
      rcases hd with rfl | hd
      · exact Nat.mod_lt _ (by omega)
      · exact ih _ d hd

theorem hexDigitsLE_foldr (fuel n : Nat) (hfuel : n ≤ fuel) :
    (hexDigitsLE fuel n).foldr (fun d acc => d + 16 * acc) 0 = n := by
  induction fuel generalizing n with
  | zero => simp [hexDigitsLE]; omega
  | succ m ih =>
    rw [hexDigitsLE]
    by_cases hn : n = 0
    · simp [hn]
    · have hdiv : n / 16 ≤ m := by
        have := Nat.div_lt_self (Nat.pos_of_ne_zero hn) (show 1 < 16 by omega)
        omega
      simp only [hn, if_false, List.foldr_cons, ih _ hdiv]
      omega

theorem parseHexDigits_hexRep (n : Nat) : parseHexDigits (hexRep n) = n := by
  rw [hexRep]
  by_cases hn : n = 0
  · simp [hn]
    decide
  · rw [if_neg hn, parseHexDigits_rev_digits _ (hexDigitsLE_lt n n),
      hexDigitsLE_foldr n n (Nat.le_refl n)]

theorem hexToNat_toHex (n len : Nat) : hexToNat (toHex n len) = n := by
  show parseHexDigits ((('0' :: 'x' :: padStart (hexRep n) (2 * len) '0').drop 2)) = n
  rw [List.drop_succ_cons, List.drop_succ_cons, List.drop_zero, padStart,
    parseHexDigits_replicate_zero, parseHexDigits_hexRep]

/-! ## Event sorting lemmas -/

theorem insertEvent_perm (e : DepositEvent) (l : List DepositEvent) :
    (insertEvent e l).Perm (e :: l) := by
  induction l with
  | nil => exact List.Perm.refl _
  | cons f rest ih =>
    rw [insertEvent]
    by_cases h : e.leafIndex ≤ f.leafIndex
    · rw [if_pos h]
    · rw [if_neg h]
      exact (ih.cons f).trans (List.Perm.swap e f rest)

theorem sortEvents_perm (l : List DepositEvent) : (sortEvents l).Perm l := by
  induction l with
  | nil => exact List.Perm.refl _
  | cons e rest ih =>
    show (insertEvent e (sortEvents rest)).Perm (e :: rest)
    exact (insertEvent_perm e (sortEvents rest)).trans (ih.cons e)

theorem insertEvent_sorted (e : DepositEvent) (l : List DepositEvent)
    (hs : l.Pairwise (fun a b => a.leafIndex ≤ b.leafIndex)) :
    (insertEvent e l).Pairwise (fun a b => a.leafIndex ≤ b.leafIndex) := by
  induction l with
  | nil => simp [insertEvent]
  | cons f rest ih =>
    rw [List.pairwise_cons] at hs
    rw [insertEvent]
    by_cases h : e.leafIndex ≤ f.leafIndex
    · rw [if_pos h]
      refine List.Pairwise.cons ?_ (List.Pairwise.cons hs.1 hs.2)
      intro b hb
      rcases List.mem_cons.1 hb with rfl | hb
      · exact h
      · exact Nat.le_trans h (hs.1 b hb)
    · rw [if_neg h]
      refine List.Pairwise.cons ?_ (ih hs.2)
      intro b hb
      have hb2 := (insertEvent_perm e rest).mem_iff.1 hb
      rcases List.mem_cons.1 hb2 with rfl | hb3
      · omega
      · exact hs.1 b hb3

theorem sortEvents_sorted (l : List DepositEvent) :
    (sortEvents l).Pairwise (fun a b => a.leafIndex ≤ b.leafIndex) := by
  induction l with
  | nil => exact List.Pairwise.nil
  | cons e rest ih => exact insertEvent_sorted e _ ih

theorem sorted_perm_nodup_eq :
    ∀ (l1 l2 : List DepositEvent), l1.Perm l2 →
      l1.Pairwise (fun a b => a.leafIndex ≤ b.leafIndex) →
      l2.Pairwise (fun a b => a.leafIndex ≤ b.leafIndex) →
      (l1.map DepositEvent.leafIndex).Nodup → l1 = l2
  | [], l2, hp, _, _, _ => (hp.symm.eq_nil).symm
  | a :: t1, l2, hp, hs1, hs2, hnd => by
    cases l2 with
    | nil => exact absurd hp.eq_nil (by simp)
    | cons b t2 =>
      rw [List.pairwise_cons] at hs1 hs2
      rw [List.map_cons, List.nodup_cons] at hnd
      have hab : a = b := by
        have ha2 : a ∈ b :: t2 := hp.subset (List.mem_cons_self ..)
        rcases List.mem_cons.1 ha2 with h | h
        · exact h
        · have hb1 : b ∈ a :: t1 := hp.symm.subset (List.mem_cons_self ..)
          rcases List.mem_cons.1 hb1 with h2 | h2
          · exact h2.symm
          · have h3 : a.leafIndex ≤ b.leafIndex := hs1.1 b h2
            have h4 : b.leafIndex ≤ a.leafIndex := hs2.1 a h
            have hmem : b.leafIndex ∈ t1.map DepositEvent.leafIndex :=
              List.mem_map_of_mem _ h2
            rw [show b.leafIndex = a.leafIndex from by omega] at hmem
            exact absurd hmem hnd.1
      subst hab
      have hp2 : t1.Perm t2 := hp.cons_inv
      rw [sorted_perm_nodup_eq t1 t2 hp2 hs1.2 hs2.2 hnd.2]

/-- The leaf sequence is invariant under reordering of the delivered events,
provided the ledger-assigned leaf indexes are pairwise distinct. -/
theorem eventLeaves_perm_eq (l1 l2 : List DepositEvent) (hperm : l1.Perm l2)
    (hnd : (l1.map DepositEvent.leafIndex).Nodup) : eventLeaves l1 = eventLeaves l2 := by
  have hperm2 : (sortEvents l1).Perm (sortEvents l2) :=
    ((sortEvents_perm l1).trans hperm).trans (sortEvents_perm l2).symm
  have hnd1 : ((sortEvents l1).map DepositEvent.leafIndex).Nodup :=
    (((sortEvents_perm l1).map DepositEvent.leafIndex).nodup_iff).2 hnd
  rw [eventLeaves, eventLeaves,
    sorted_perm_nodup_eq (sortEvents l1) (sortEvents l2) hperm2
      (sortEvents_sorted l1) (sortEvents_sorted l2) hnd1]

/-! ## Note round-trip lemmas -/

theorem encodeNote_drop2 (bs : List Nat) (hlen : bs.length = 62) :
    (encodeNote bs).drop 2 = bytesToHex bs := by
  show padStart (bytesToHex bs) (2 * 62) '0' = bytesToHex bs
  rw [padStart, bytesToHex_length, hlen]
  simp

theorem noteFormatOk_encodeNote (bs : List Nat) (hlen : bs.length = 62)
    (hb : ∀ b ∈ bs, b < 256) : noteFormatOk (encodeNote bs) = true := by
  have h124 : (bytesToHex bs).length = 124 := by rw [bytesToHex_length, hlen]
  have hps : padStart (bytesToHex bs) (2 * 62) '0' = bytesToHex bs := by
    rw [padStart, h124]
    simp
  show noteFormatOk ('0' :: 'x' :: padStart (bytesToHex bs) (2 * 62) '0') = true
  rw [hps, noteFormatOk]
  simp only [List.length_cons, h124, List.take_succ_cons, List.take_zero,
    List.drop_succ_cons, List.drop_zero, bytesToHex_all_hex bs hb]
  rfl

theorem createDeposit_preimage_length (Hp : List Nat → Nat) (n s : Nat) :
    (createDeposit Hp n s).preimage.length = 62 := by
  show (leInt2Buff n 31 ++ leInt2Buff s 31).length = 62
  rw [List.length_append, leInt2Buff_length, leInt2Buff_length]

theorem createDeposit_preimage_lt (Hp : List Nat → Nat) (n s : Nat) :
    ∀ b ∈ (createDeposit Hp n s).preimage, b < 256 := by
  intro b hb
  rcases List.mem_append.1 hb with h | h
  · exact leInt2Buff_lt n 31 b h
  · exact leInt2Buff_lt s 31 b h

theorem depositFromNote_encodeNote (Hp : List Nat → Nat) (n s : Nat)
    (hn : n < 2 ^ 248) (hs : s < 2 ^ 248) :
    depositFromNote Hp (encodeNote (createDeposit Hp n s).preimage) =
      createDeposit Hp n s := by
  have hlen := createDeposit_preimage_length Hp n s
  have hlt := createDeposit_preimage_lt Hp n s
  have hdrop := encodeNote_drop2 _ hlen
  rw [depositFromNote, hdrop, hexPairsToBytes_bytesToHex _ hlt]
  have hpre : (createDeposit Hp n s).preimage = leInt2Buff n 31 ++ leInt2Buff s 31 := rfl
  rw [hpre, List.take_left' (leInt2Buff_length n 31), List.drop_left' (leInt2Buff_length n 31),
    leBuff2int_leInt2Buff, leBuff2int_leInt2Buff, pow256_31,
    Nat.mod_eq_of_lt hn, Nat.mod_eq_of_lt hs]

theorem decodeNote_encodeNote (Hp : List Nat → Nat) (n s : Nat)
    (hn : n < 2 ^ 248) (hs : s < 2 ^ 248) :
    decodeNote Hp (encodeNote (createDeposit Hp n s).preimage) =
      .ok (createDeposit Hp n s) := by
  rw [decodeNote, noteFormatOk_encodeNote _ (createDeposit_preimage_length Hp n s)
    (createDeposit_preimage_lt Hp n s), if_pos rfl,
    depositFromNote_encodeNote Hp n s hn hs]

/-! ## Merkle tree lemmas -/

theorem levelUp_length (Ht : Nat → Nat → Nat) (z : Nat) :
    ∀ L : List Nat, (levelUp Ht z L).length = (L.length + 1) / 2
  | [] => by simp [levelUp]
  | [_] => by simp [levelUp]
  | a :: b :: rest => by
    have ih := levelUp_length Ht z rest
    simp only [levelUp, List.length_cons, ih]
    omega

theorem levelUp_getD (Ht : Nat → Nat → Nat) (z : Nat) :
    ∀ (L : List Nat) (j : Nat),
      (levelUp Ht z L).getD j (Ht z z) = Ht (L.getD (2 * j) z) (L.getD (2 * j + 1) z)
  | [], j => by simp [levelUp]
  | [a], 0 => by simp [levelUp]
  | [a], j + 1 => by
    have h1 : 2 * (j + 1) = 2 * j + 1 + 1 := by omega
    have h2 : 2 * (j + 1) + 1 = 2 * j + 1 + 1 + 1 := by omega
    simp only [levelUp, h1, h2, List.getD_cons_succ]
    simp
  | a :: b :: rest, 0 => by simp [levelUp]
  | a :: b :: rest, j + 1 => by
    have ih := levelUp_getD Ht z rest j
    have h1 : 2 * (j + 1) = 2 * j + 1 + 1 := by omega
    have h2 : 2 * (j + 1) + 1 = 2 * j + 1 + 1 + 1 := by omega
    simp only [levelUp, h1, h2, List.getD_cons_succ]
    exact ih

theorem pathAux_fst_length (Ht : Nat → Nat → Nat) (zeroV : Nat) :
    ∀ (h i : Nat) (L : List Nat) (idx : Nat), (pathAux Ht zeroV h i L idx).1.length = h := by
  intro h
  induction h with
  | zero => intro i L idx; rfl
  | succ m ih => intro i L idx; simp [pathAux, ih]

theorem pathAux_snd_length (Ht : Nat → Nat → Nat) (zeroV : Nat) :
    ∀ (h i : Nat) (L : List Nat) (idx : Nat), (pathAux Ht zeroV h i L idx).2.length = h := by
  intro h
  induction h with
  | zero => intro i L idx; rfl
  | succ m ih => intro i L idx; simp [pathAux, ih]

theorem pathAux_recombine (Ht : Nat → Nat → Nat) (zeroV : Nat) :
    ∀ (h i : Nat) (L : List Nat) (idx : Nat), idx < 2 ^ h →
      recombine Ht (L.getD idx (zeros Ht zeroV i)) (pathAux Ht zeroV h i L idx).1
        (pathAux Ht zeroV h i L idx).2 = rootAux Ht zeroV h i L := by
  intro h
  induction h with
  | zero =>
    intro i L idx hidx
    have hidx0 : idx = 0 := by omega
    subst hidx0
    cases L with
    | nil => rfl
    | cons a rest => rfl
  | succ m ih =>
    intro i L idx hidx
    have hz : Ht (zeros Ht zeroV i) (zeros Ht zeroV i) = zeros Ht zeroV (i + 1) := rfl
    have hgl := levelUp_getD Ht (zeros Ht zeroV i) L (idx / 2)
    rw [hz] at hgl
    have hdiv : idx / 2 < 2 ^ m := by
      apply Nat.div_lt_of_lt_mul
      have : 2 ^ (m + 1) = 2 * 2 ^ m := by rw [pow_succ, Nat.mul_comm]
      omega
    have ihm := ih (i + 1) (levelUp Ht (zeros Ht zeroV i) L) (idx / 2) hdiv
    simp only [pathAux, recombine]
    rcases Nat.mod_two_eq_zero_or_one idx with hpar | hpar
    · rw [show (2 * (idx / 2) + 1 : Nat) = idx + 1 from by omega,
        show (2 * (idx / 2) : Nat) = idx from by omega] at hgl
      rw [if_pos hpar, if_pos hpar, ← hgl]
      exact ihm
    · have hne : idx % 2 ≠ 0 := by omega
      rw [show (2 * (idx / 2) + 1 : Nat) = idx from by omega,
        show (2 * (idx / 2) : Nat) = idx - 1 from by omega] at hgl
      rw [if_neg hne, if_neg hne, ← hgl]
      exact ihm

theorem hashLevel_replicate (Ht : Nat → Nat → Nat) (z : Nat) :
    ∀ n : Nat, hashLevel Ht (List.replicate (2 * n) z) = List.replicate n (Ht z z) := by
  intro n
  induction n with
  | zero => rfl
  | succ m ih =>
    have h1 : 2 * (m + 1) = 2 * m + 1 + 1 := by omega
    rw [h1, List.replicate_succ, List.replicate_succ, hashLevel, ih, List.replicate_succ]

theorem hashLevel_pad (Ht : Nat → Nat → Nat) (z : Nat) :
    ∀ (L : List Nat) (n : Nat), L.length ≤ 2 * n →
      hashLevel Ht (L ++ List.replicate (2 * n - L.length) z) =
        levelUp Ht z L ++ List.replicate (n - (levelUp Ht z L).length) (Ht z z)
  | [], n, _ => by
    simp only [List.length_nil, Nat.sub_zero, List.nil_append, levelUp]
    rw [hashLevel_replicate]
  | [a], n, h => by
    have hn : 1 ≤ n := by simp at h; omega
    have h1 : 2 * n - 1 = 2 * (n - 1) + 1 := by omega
    simp only [List.length_cons, List.length_nil]
    rw [show (0 : Nat) + 1 = 1 from rfl, h1, List.replicate_succ, List.cons_append,
      List.nil_append, hashLevel, hashLevel_replicate]
    simp [levelUp]
  | a :: b :: rest, n, h => by
    have hrest : rest.length ≤ 2 * (n - 1) := by simp at h; omega
    have hn : 1 ≤ n := by simp at h; omega
    have hcount : 2 * n - (a :: b :: rest).length = 2 * (n - 1) - rest.length := by
      simp; omega
    have ih := hashLevel_pad Ht z rest (n - 1) hrest
    rw [hcount, List.cons_append, List.cons_append, hashLevel, ih]
    simp only [levelUp, List.cons_append, List.length_cons]
    rw [show n - 1 - (levelUp Ht z rest).length = n - ((levelUp Ht z rest).length + 1) from
      by omega]

theorem iterLevels_pad (Ht : Nat → Nat → Nat) (zeroV : Nat) :
    ∀ (h i : Nat) (L : List Nat), L.length ≤ 2 ^ h →
      iterLevels Ht h (L ++ List.replicate (2 ^ h - L.length) (zeros Ht zeroV i)) =
        [rootAux Ht zeroV h i L] := by
  intro h
  induction h with
  | zero =>
    intro i L hL
    cases L with
    | nil => rfl
    | cons a rest =>
      cases rest with
      | nil => rfl
      | cons b rest2 => simp at hL
  | succ m ih =>
    intro i L hL
    have hpow : 2 ^ (m + 1) = 2 * 2 ^ m := by rw [pow_succ, Nat.mul_comm]
    have hL2 : L.length ≤ 2 * 2 ^ m := by omega
    show iterLevels Ht m
        (hashLevel Ht (L ++ List.replicate (2 ^ (m + 1) - L.length) (zeros Ht zeroV i))) = _
    rw [hpow, hashLevel_pad Ht (zeros Ht zeroV i) L (2 ^ m) hL2]
    have hlen : (levelUp Ht (zeros Ht zeroV i) L).length ≤ 2 ^ m := by
      rw [levelUp_length]
      omega
    have hz : Ht (zeros Ht zeroV i) (zeros Ht zeroV i) = zeros Ht zeroV (i + 1) := rfl
    rw [hz]
    exact ih (i + 1) (levelUp Ht (zeros Ht zeroV i) L) hlen

theorem treePath_def (Ht : Nat → Nat → Nat) (zeroV : Nat) (leaves : List Nat)
    (idx : Nat) : treePath Ht zeroV leaves idx =
      { root := treeRootH Ht zeroV MERKLE_TREE_HEIGHT leaves
        path_elements := (pathAux Ht zeroV MERKLE_TREE_HEIGHT 0 leaves idx).1
        path_index := (pathAux Ht zeroV MERKLE_TREE_HEIGHT 0 leaves idx).2 } := rfl

theorem treeRootH_rootAux (Ht : Nat → Nat → Nat) (zeroV h : Nat) (leaves : List Nat) :
    treeRootH Ht zeroV h leaves = rootAux Ht zeroV h 0 leaves := rfl

theorem conceptualRoot_eq_treeRootH (Ht : Nat → Nat → Nat) (zeroV h : Nat)
    (leaves : List Nat) (hlen : leaves.length ≤ 2 ^ h) :
    conceptualRoot Ht zeroV h leaves = treeRootH Ht zeroV h leaves := by
  rw [conceptualRoot, paddedLeaves]
  have hz : (zeroV : Nat) = zeros Ht zeroV 0 := rfl
  rw [show List.replicate (2 ^ h - leaves.length) zeroV =
      List.replicate (2 ^ h - leaves.length) (zeros Ht zeroV 0) from rfl,
    iterLevels_pad Ht zeroV h 0 leaves hlen]
  rfl

/-! ## Confirmation-polling lemmas -/

theorem checkForTx_timeout (poll : Nat → Option Receipt) (attempts delay : Nat) :
    ∀ (n r : Nat), attempts + 1 - r ≤ n → r ≤ attempts + 1 →
      (∀ k, r ≤ k → k ≤ attempts + 1 → pollBad (poll k) = true) →
      checkForTx poll attempts delay r = .error .ConfirmationTimeout := by
  intro n
  induction n with
  | zero =>
    intro r hn hr hbad
    have hb := hbad r (Nat.le_refl r) hr
    rw [checkForTx, if_pos hb, dif_neg (by omega)]
  | succ m ih =>
    intro r hn hr hbad
    by_cases hcase : r ≤ attempts
    · have hb := hbad r (Nat.le_refl r) (by omega)
      rw [checkForTx, if_pos hb, dif_pos hcase]
      exact ih (r + 1) (by omega) (by omega) (fun k hk1 hk2 => hbad k (by omega) hk2)
    · exact ih r (by omega) hr hbad

theorem checkForTx_found (poll : Nat → Option Receipt) (attempts delay : Nat) :
    ∀ (n r k : Nat) (rc : Receipt), k - r ≤ n → r ≤ k → k ≤ attempts + 1 →
      (∀ j, r ≤ j → j < k → pollBad (poll j) = true) →
      poll k = some rc → receiptHasBlock rc = true →
      checkForTx poll attempts delay r = .ok rc := by
  intro n
  induction n with
  | zero =>
    intro r k rc hn hrk hk hbad hpoll hblock
    have hreq : r = k := by omega
    subst hreq
    have hgood : pollBad (poll r) = false := by
      rw [hpoll, pollBad, hblock]
      rfl
    rw [checkForTx, if_neg (by rw [hgood]; exact Bool.false_ne_true), hpoll]
  | succ m ih =>
    intro r k rc hn hrk hk hbad hpoll hblock
    by_cases hrk2 : r = k
    · exact ih r k rc (by omega) hrk hk hbad hpoll hblock
    · have hb := hbad r (Nat.le_refl r) (by omega)
      have hra : r ≤ attempts := by omega
      rw [checkForTx, if_pos hb, dif_pos hra]
      exact ih (r + 1) k rc (by omega) (by omega) hk
        (fun j h1 h2 => hbad j (by omega) h2) hpoll hblock

theorem checkForTx_congr (poll1 poll2 : Nat → Option Receipt) (attempts delay : Nat) :
    ∀ (n r : Nat), attempts + 1 - r ≤ n → r ≤ attempts + 1 →
      (∀ k, r ≤ k → k ≤ attempts + 1 → poll1 k = poll2 k) →
      checkForTx poll1 attempts delay r = checkForTx poll2 attempts delay r := by
  intro n
  induction n with
  | zero =>
    intro r hn hr hagree
    conv_lhs => rw [checkForTx]
    conv_rhs => rw [checkForTx]
    rw [hagree r (Nat.le_refl r) hr]
    by_cases hb : pollBad (poll2 r) = true
    · rw [if_pos hb, if_pos hb, dif_neg (by omega), dif_neg (by omega)]
    · rw [if_neg hb, if_neg hb]
  | succ m ih =>
    intro r hn hr hagree
    by_cases hcase : r ≤ attempts
    · conv_lhs => rw [checkForTx]
      conv_rhs => rw [checkForTx]
      rw [hagree r (Nat.le_refl r) hr]
      have hrec := ih (r + 1) (by omega) (by omega) (fun k h1 h2 => hagree k (by omega) h2)
      by_cases hb : pollBad (poll2 r) = true
      · rw [if_pos hb, if_pos hb, dif_pos hcase, dif_pos hcase, hrec]
      · rw [if_neg hb, if_neg hb]
    · exact ih r (by omega) hr hagree

/-! ## Proof-pipeline lemmas -/

theorem generateMerkleProof_spent (Ht : Nat → Nat → Nat) (zeroV : Nat) (ledger : Ledger)
    (d : Deposit)
    (hroot : ledger.isKnownRoot (toHex (treeRoot Ht zeroV (eventLeaves ledger.events)) 32) = true)
    (hspent : ledger.isSpent (toHex d.nullifierHash 32) = true) :
    generateMerkleProof Ht zeroV ledger d = .error .AlreadySpent := by
  simp only [generateMerkleProof]
  rw [hroot, hspent]
  simp

theorem generateMerkleProof_ne_NetworkMismatch (Ht : Nat → Nat → Nat) (zeroV : Nat)
    (ledger : Ledger) (d : Deposit) :
    generateMerkleProof Ht zeroV ledger d ≠ .error .NetworkMismatch := by
  simp only [generateMerkleProof]
  split_ifs <;> simp

theorem generateProof_ne_NetworkMismatch (Hp : List Nat → Nat) (Ht : Nat → Nat → Nat)
    (zeroV : Nat) (prove : CircuitInput → Nat) (ledger : Ledger) (note : List Char)
    (recipient relayer fee refund : Nat) :
    generateProof Hp Ht zeroV prove ledger note recipient relayer fee refund ≠
      .error .NetworkMismatch := by
  rw [generateProof]
  cases hgmp : generateMerkleProof Ht zeroV ledger (depositFromNote Hp note) with
  | error e =>
    simp only [Except.map]
    intro hcontra
    injection hcontra with he
    exact generateMerkleProof_ne_NetworkMismatch Ht zeroV ledger
      (depositFromNote Hp note) (he ▸ hgmp)
  | ok pd => simp [Except.map]

theorem generateProof_args_relayer (Hp : List Nat → Nat) (Ht : Nat → Nat → Nat)
    (zeroV : Nat) (prove : CircuitInput → Nat) (ledger : Ledger) (note : List Char)
    (recipient relayer fee refund : Nat) (pr : ProofArgs)
    (h : generateProof Hp Ht zeroV prove ledger note recipient relayer fee refund = .ok pr) :
    pr.args.getD 3 [] = toHex relayer 20 := by
  rw [generateProof] at h
  cases hgmp : generateMerkleProof Ht zeroV ledger (depositFromNote Hp note) with
  | error e => rw [hgmp] at h; simp [Except.map] at h
  | ok pd =>
    rw [hgmp] at h
    simp only [Except.map, Except.ok.injEq] at h
    rw [← h]
    rfl

/-! ## Claim theorems -/

/-- C1: for 31-byte little-endian scalars, `createDeposit(nullifier, secret)`
returns the deposit whose preimage is exactly the 62-byte concatenation
`leBytes(nullifier, 31) ++ leBytes(secret, 31)` (each half still recovering
its scalar), whose commitment is `H(preimage)` and whose nullifier hash is
`H(leBytes(nullifier, 31))`; the function is pure and deterministic — two
calls with equal arguments yield equal deposits. -/
theorem c1_createDeposit_spec (Hp : List Nat → Nat) (n s : Nat)
    (hn : n < 2 ^ 248) (hs : s < 2 ^ 248) :
    (createDeposit Hp n s).preimage = leInt2Buff n 31 ++ leInt2Buff s 31
    ∧ (createDeposit Hp n s).preimage.length = 62
    ∧ (createDeposit Hp n s).commitment = Hp ((createDeposit Hp n s).preimage)
    ∧ (createDeposit Hp n s).nullifierHash = Hp (leInt2Buff n 31)
    ∧ leBuff2int ((createDeposit Hp n s).preimage.take 31) = n
    ∧ leBuff2int ((createDeposit Hp n s).preimage.drop 31) = s
    ∧ ∀ n2 s2 : Nat, n2 = n → s2 = s → createDeposit Hp n2 s2 = createDeposit Hp n s := by
  refine ⟨rfl, createDeposit_preimage_length Hp n s, rfl, rfl, ?_, ?_, ?_⟩
  · show leBuff2int ((leInt2Buff n 31 ++ leInt2Buff s 31).take 31) = n
    rw [List.take_left' (leInt2Buff_length n 31), leBuff2int_leInt2Buff, pow256_31,
      Nat.mod_eq_of_lt hn]
  · show leBuff2int ((leInt2Buff n 31 ++ leInt2Buff s 31).drop 31) = s
    rw [List.drop_left' (leInt2Buff_length n 31), leBuff2int_leInt2Buff, pow256_31,
      Nat.mod_eq_of_lt hs]
  · rintro n2 s2 rfl rfl
    rfl

/-- Witness for C1 at `nullifier = 1`, `secret = 2`. -/
theorem c1_witness :
    (1 : Nat) < 2 ^ 248 ∧ (2 : Nat) < 2 ^ 248 ∧
    leBuff2int ((createDeposit (fun _ => 0) 1 2).preimage.take 31) = 1 :=
  ⟨by norm_num, by norm_num,
    (c1_createDeposit_spec (fun _ => 0) 1 2 (by norm_num) (by norm_num)).2.2.2.2.1⟩

/-- C2: note encode/decode round-trip — decoding the 124-hex-character note
that encodes the preimage of `createDeposit(nullifier, secret)` yields a
deposit with the same commitment. -/
theorem c2_note_roundtrip (Hp : List Nat → Nat) (n s : Nat)
    (hn : n < 2 ^ 248) (hs : s < 2 ^ 248) :
    (decodeNote Hp (encodeNote (createDeposit Hp n s).preimage)).map Deposit.commitment =
      .ok (createDeposit Hp n s).commitment := by
  rw [decodeNote_encodeNote Hp n s hn hs]
  rfl

/-- Witness for C2 at `nullifier = 1`, `secret = 2`. -/
theorem c2_witness :
    (1 : Nat) < 2 ^ 248 ∧ (2 : Nat) < 2 ^ 248 ∧
    (decodeNote (fun _ => 5) (encodeNote (createDeposit (fun _ => 5) 1 2).preimage)).map
      Deposit.commitment = .ok (createDeposit (fun _ => 5) 1 2).commitment :=
  ⟨by norm_num, by norm_num, c2_note_roundtrip (fun _ => 5) 1 2 (by norm_num) (by norm_num)⟩

/-- C8: every string failing `^0x[0-9a-fA-F]{124}$` is rejected with
`MalformedNote` before any deposit is derived; every string passing it
yields exactly 62 bytes, split into a 31-byte prefix and suffix decoded as
little-endian scalars and fed to `createDeposit`. -/
theorem c8_note_validation (Hp : List Nat → Nat) (note : List Char) :
    (noteFormatOk note = false → decodeNote Hp note = .error .MalformedNote)
    ∧ (noteFormatOk note = true →
        (hexPairsToBytes (note.drop 2)).length = 62
        ∧ ((hexPairsToBytes (note.drop 2)).take 31).length = 31
        ∧ decodeNote Hp note =
            .ok (createDeposit Hp
              (leBuff2int ((hexPairsToBytes (note.drop 2)).take 31))
              (leBuff2int ((hexPairsToBytes (note.drop 2)).drop 31)))) := by
  constructor
  · intro hbad
    rw [decodeNote, hbad]
    rfl
  · intro hok
    have hlen126 : note.length = 126 := by
      rw [noteFormatOk] at hok
      simp only [Bool.and_eq_true, beq_iff_eq] at hok
      exact hok.1.1
    have hlen : (hexPairsToBytes (note.drop 2)).length = 62 := by
      rw [hexPairsToBytes_length, List.length_drop, hlen126]
    refine ⟨hlen, ?_, ?_⟩
    · rw [List.length_take, hlen]
      omega
    · rw [decodeNote, hok]
      rfl

set_option maxRecDepth 4000 in
/-- Witness for C8: a malformed one-character string is rejected, and the
all-zero 62-byte note decodes to 62 bytes. -/
theorem c8_witness :
    decodeNote (fun _ => 0) ['a'] = .error .MalformedNote
    ∧ (hexPairsToBytes ((encodeNote (List.replicate 62 0)).drop 2)).length = 62 :=
  ⟨(c8_note_validation (fun _ => 0) ['a']).1 (by decide),
   ((c8_note_validation (fun _ => 0) (encodeNote (List.replicate 62 0))).2 (by decide)).1⟩

/-- C10: `toHex(number, length)` left-pads to `2·length` hex characters but
never truncates — the output length is `2 + max (2·length) (hex width)`,
so an input wider than the declared width makes the output exceed it (the
declared 20-byte and 32-byte widths are lower bounds, not exact widths),
the numeric value always survives unchanged, and for Buffer inputs the
length parameter only pads: the full hex of the buffer is a suffix of the
output. -/
theorem c10_toHex_pads_never_truncates (n len : Nat) (bs : List Nat) :
    (toHex n len).length = 2 + max (2 * len) (hexRep n).length
    ∧ ((hexRep n).length > 2 * len → (toHex n len).length > 2 + 2 * len)
    ∧ hexToNat (toHex n len) = n
    ∧ (toHexBuf bs len).length = 2 + max (2 * len) (2 * bs.length)
    ∧ bytesToHex bs <:+ toHexBuf bs len := by
  have h1 : (toHex n len).length = 2 + max (2 * len) (hexRep n).length := by
    show ('0' :: 'x' :: padStart (hexRep n) (2 * len) '0').length = _
    simp [padStart_length]
    omega
  refine ⟨h1, ?_, hexToNat_toHex n len, ?_, ?_⟩
  · intro hwide
    rw [h1, Nat.max_eq_right (Nat.le_of_lt hwide)]
    omega
  · show ('0' :: 'x' :: padStart (bytesToHex bs) (2 * len) '0').length = _
    simp [padStart_length, bytesToHex_length]
    omega
  · exact ⟨'0' :: 'x' :: List.replicate (2 * len - (bytesToHex bs).length) '0',
      by simp [toHexBuf, padStart]⟩

/-- Witness for C10: `16^40` needs 41 hex digits, so `toHex` at the 20-byte
width exceeds the declared 42-character size instead of truncating. -/
theorem c10_witness :
    (hexRep (16 ^ 40)).length > 2 * 20
    ∧ (toHex (16 ^ 40) 20).length > 2 + 2 * 20 := by
  have hw : (hexRep (16 ^ 40)).length > 2 * 20 := by decide
  exact ⟨hw, (c10_toHex_pads_never_truncates (16 ^ 40) 20 []).2.1 hw⟩

/-- C3 is refuted as stated: the source asserts the reconstructed root is
known to the ledger *before* it checks the nullifier registry, so a spent
nullifier combined with an unrecognized root fails with `TreeCorrupted`,
not `AlreadySpent`. -/
theorem c3_counterexample :
    spentUnknownRootLedger.isSpent
        (toHex (createDeposit hpSample 1 2).nullifierHash 32) = true
    ∧ generateMerkleProof htSample 0 spentUnknownRootLedger (createDeposit hpSample 1 2) =
        .error .TreeCorrupted
    ∧ generateMerkleProof htSample 0 spentUnknownRootLedger (createDeposit hpSample 1 2) ≠
        .error .AlreadySpent := by
  have h2 : generateMerkleProof htSample 0 spentUnknownRootLedger
      (createDeposit hpSample 1 2) = .error .TreeCorrupted := rfl
  refine ⟨rfl, h2, ?_⟩
  rw [h2]
  simp

/-- C3 (amended): whenever the ledger reports the nullifier hash as spent
*and* recognizes the reconstructed root, `generateMerkleProof` fails with
`AlreadySpent` — regardless of whether the commitment is present in the
leaf set (the leaf-index check comes after the spent check); when the root
is unrecognized, the `TreeCorrupted` assertion fires first instead. -/
theorem c3_alreadySpent_requires_known_root (Ht : Nat → Nat → Nat) (zeroV : Nat)
    (ledger : Ledger) (d : Deposit)
    (hroot : ledger.isKnownRoot
      (toHex (treeRoot Ht zeroV (eventLeaves ledger.events)) 32) = true)
    (hspent : ledger.isSpent (toHex d.nullifierHash 32) = true) :
    generateMerkleProof Ht zeroV ledger d = .error .AlreadySpent :=
  generateMerkleProof_spent Ht zeroV ledger d hroot hspent

/-- Witness for the amended C3: a ledger that accepts every root and marks
everything spent rejects any deposit with `AlreadySpent` even though its
leaf set is empty. -/
theorem c3_witness :
    spentKnownRootLedger.isSpent
        (toHex (createDeposit hpSample 1 2).nullifierHash 32) = true
    ∧ generateMerkleProof htSample 0 spentKnownRootLedger (createDeposit hpSample 1 2) =
        .error .AlreadySpent :=
  ⟨rfl, c3_alreadySpent_requires_known_root htSample 0 spentKnownRootLedger
    (createDeposit hpSample 1 2) rfl rfl⟩

/-- C4 is refuted as stated: two events sharing the ledger-assigned
`leafIndex` 0 but carrying different commitments produce different leaf
sequences when their delivery order is swapped, so reordering the input
event list can change the constructed leaf sequence. -/
theorem c4_counterexample :
    ([dupEventA, dupEventB] : List DepositEvent).Perm [dupEventB, dupEventA]
    ∧ eventLeaves [dupEventA, dupEventB] ≠ eventLeaves [dupEventB, dupEventA] :=
  ⟨List.Perm.swap dupEventB dupEventA [], by decide⟩

/-- C4 (amended): the leaf sequence handed to the tree constructor is always
sorted ascending by `leafIndex`, and as long as the delivered events'
ledger-assigned leaf indexes are pairwise distinct, reordering the input
event list never changes the constructed leaf sequence.  (With duplicate
indexes carrying different commitments, reordering can change it — see the
counterexample.) -/
theorem c4_sorted_and_reorder_invariant (l1 l2 : List DepositEvent) :
    (sortEvents l1).Pairwise (fun a b => a.leafIndex ≤ b.leafIndex)
    ∧ (l1.Perm l2 → (l1.map DepositEvent.leafIndex).Nodup →
        eventLeaves l1 = eventLeaves l2) :=
  ⟨sortEvents_sorted l1, fun hp hnd => eventLeaves_perm_eq l1 l2 hp hnd⟩

/-- Witness for the amended C4: two events with distinct leaf indexes give
the same sorted leaf sequence in either delivery order. -/
theorem c4_witness :
    (sortEvents [evHigh, evLow]).Pairwise (fun a b => a.leafIndex ≤ b.leafIndex)
    ∧ eventLeaves [evHigh, evLow] = eventLeaves [evLow, evHigh] :=
  ⟨(c4_sorted_and_reorder_invariant [evHigh, evLow] [evLow, evHigh]).1,
   (c4_sorted_and_reorder_invariant [evHigh, evLow] [evLow, evHigh]).2
     (List.Perm.swap evLow evHigh []) (by decide)⟩

/-- C5: for the height-20 tree over an ordered leaf sequence and every valid
leaf index `i`, `Path(i)` returns 20 path elements and 20 side bits, folding
the leaf at `i` upward — hashing with each path element on the side named by
the corresponding bit — reproduces `Root()` exactly, and that root equals
the spec's conceptual hash-tree reduction of the zero-padded `2^20`-wide
leaf level. -/
theorem c5_path_recombines_root (Ht : Nat → Nat → Nat) (zeroV : Nat)
    (leaves : List Nat) (i : Nat) (hi : i < leaves.length)
    (hlen : leaves.length ≤ 2 ^ MERKLE_TREE_HEIGHT) :
    (treePath Ht zeroV leaves i).path_elements.length = MERKLE_TREE_HEIGHT
    ∧ (treePath Ht zeroV leaves i).path_index.length = MERKLE_TREE_HEIGHT
    ∧ recombine Ht (leaves.getD i 0) (treePath Ht zeroV leaves i).path_elements
        (treePath Ht zeroV leaves i).path_index = (treePath Ht zeroV leaves i).root
    ∧ (treePath Ht zeroV leaves i).root = conceptualRoot Ht zeroV MERKLE_TREE_HEIGHT leaves := by
  have hi2 : i < 2 ^ MERKLE_TREE_HEIGHT := Nat.lt_of_lt_of_le hi hlen
  have hleaf : leaves.getD i 0 = leaves.getD i (zeros Ht zeroV 0) := by
    rw [List.getD_eq_getElem leaves 0 hi, List.getD_eq_getElem leaves _ hi]
  rw [treePath_def]
  dsimp only
  refine ⟨pathAux_fst_length Ht zeroV MERKLE_TREE_HEIGHT 0 leaves i,
    pathAux_snd_length Ht zeroV MERKLE_TREE_HEIGHT 0 leaves i, ?_, ?_⟩
  · rw [hleaf, treeRootH_rootAux]
    exact pathAux_recombine Ht zeroV MERKLE_TREE_HEIGHT 0 leaves i hi2
  · exact (conceptualRoot_eq_treeRootH Ht zeroV MERKLE_TREE_HEIGHT leaves hlen).symm

/-- Witness for C5 on the three-leaf tree `[3, 5, 9]` at index 1. -/
theorem c5_witness :
    (treePath htSample 0 [3, 5, 9] 1).path_elements.length = MERKLE_TREE_HEIGHT
    ∧ recombine htSample ([3, 5, 9].getD 1 0) (treePath htSample 0 [3, 5, 9] 1).path_elements
        (treePath htSample 0 [3, 5, 9] 1).path_index = (treePath htSample 0 [3, 5, 9] 1).root :=
  ⟨(c5_path_recombines_root htSample 0 [3, 5, 9] 1 (by decide) (by decide)).1,
   (c5_path_recombines_root htSample 0 [3, 5, 9] 1 (by decide) (by decide)).2.2.1⟩

/-- C6: `withdrawRelay` fails with `NetworkMismatch` exactly when the relay's
reported `netId` differs from the connected ledger's network id and the
relay has not declared itself network-agnostic (`netId = "*"`); when the
ids agree or the relay is agnostic, the withdrawal proceeds (whatever then
happens, it is never a `NetworkMismatch` failure). -/
theorem c6_networkMismatch_iff (Hp : List Nat → Nat) (Ht : Nat → Nat → Nat)
    (zeroV : Nat) (prove : CircuitInput → Nat) (ledger : Ledger) (contractAddr : Nat)
    (status : RelayStatus) (ledgerNetId note : List Char) (recipient : Nat) :
    withdrawRelay Hp Ht zeroV prove ledger contractAddr status ledgerNetId note recipient =
      .error .NetworkMismatch
    ↔ (status.netId ≠ ledgerNetId ∧ status.netId ≠ ['*']) := by
  simp only [withdrawRelay]
  by_cases hcond : status.netId = ledgerNetId ∨ status.netId = ['*']
  · rw [if_pos hcond]
    constructor
    · intro hcontra
      exfalso
      cases hgp : generateProof Hp Ht zeroV prove ledger note recipient
          status.relayerAddress (computeRelayFee status) 0 with
      | error e =>
        rw [hgp] at hcontra
        simp only [Except.map] at hcontra
        injection hcontra with he
        exact generateProof_ne_NetworkMismatch Hp Ht zeroV prove ledger note recipient
          status.relayerAddress (computeRelayFee status) 0 (he ▸ hgp)
      | ok pr =>
        rw [hgp] at hcontra
        simp [Except.map] at hcontra
    · intro hne
      exfalso
      rcases hcond with h | h
      · exact hne.1 h
      · exact hne.2 h
  · rw [if_neg hcond]
    push_neg at hcond
    exact iff_of_true rfl hcond

/-- C7: with a `/status` response quoting `gasPrices.fast = 5` on the
ledger's own network, the computed fee equals 5 gwei times the fixed
gas-cost constant 1 000 000 (`5·10⁹·10⁶` wei), and entry 3 of the
`publicSignals` array POSTed to `/relay` is the 20-byte hex encoding of
`relayerAddress`, whose numeric value round-trips to `relayerAddress`. -/
theorem c7_relay_fee_and_signals (Hp : List Nat → Nat) (Ht : Nat → Nat → Nat)
    (zeroV : Nat) (prove : CircuitInput → Nat) (ledger : Ledger)
    (contractAddr relayerAddress recipient : Nat) (ledgerNetId note : List Char) :
    computeRelayFee
        { relayerAddress := relayerAddress, netId := ledgerNetId, gasPricesFast := 5 } =
      5 * 10 ^ 9 * 1000000
    ∧ hexToNat (toHex relayerAddress 20) = relayerAddress
    ∧ ∀ body : RelayPost,
        withdrawRelay Hp Ht zeroV prove ledger contractAddr
          { relayerAddress := relayerAddress, netId := ledgerNetId, gasPricesFast := 5 }
          ledgerNetId note recipient = .ok body →
        body.publicSignals.getD 3 [] = toHex relayerAddress 20 := by
  refine ⟨rfl, hexToNat_toHex relayerAddress 20, ?_⟩
  intro body hbody
  simp only [withdrawRelay] at hbody
  cases hgp : generateProof Hp Ht zeroV prove ledger note recipient relayerAddress
      (computeRelayFee
        { relayerAddress := relayerAddress, netId := ledgerNetId, gasPricesFast := 5 }) 0 with
  | error e =>
    rw [hgp] at hbody
    simp [Except.map] at hbody
  | ok pr =>
    rw [hgp] at hbody
    simp only [Except.map, true_or, if_true, Except.ok.injEq] at hbody
    rw [← hbody]
    exact generateProof_args_relayer Hp Ht zeroV prove ledger note recipient relayerAddress
      _ 0 pr hgp

/-- Witness for C7 on the sample one-deposit ledger: the fee quote and the
fourth public signal of the actually assembled POST body. -/
theorem c7_witness :
    computeRelayFee sampleStatus = 5 * 10 ^ 9 * 1000000
    ∧ sampleRelayBody.publicSignals.getD 3 [] = toHex 9 20 :=
  ⟨(c7_relay_fee_and_signals hpSample htSample 0 (fun _ => 0) sampleLedger 3 9 4 ['1']
      ['0', 'x']).1,
   (c7_relay_fee_and_signals hpSample htSample 0 (fun _ => 0) sampleLedger 3 9 4 ['1']
      ['0', 'x']).2.2 sampleRelayBody rfl⟩

/-- C9: `waitForTxReceipt` resolves with the receipt as soon as a poll
observes one with a truthy block number; if no query in the fixed budget of
`attempts + 2` polls (indices `0 … attempts + 1`) sees one, it rejects with
`ConfirmationTimeout` — a statement about local waiting only, since the
result depends on nothing beyond those finitely many receipt queries (the
`delay` parameter only spaces them in time). -/
theorem c9_waitForTxReceipt_spec (poll : Nat → Option Receipt) (attempts delay : Nat) :
    ((∀ k, k ≤ attempts + 1 → pollBad (poll k) = true) →
        waitForTxReceipt poll attempts delay = .error .ConfirmationTimeout)
    ∧ (∀ (k : Nat) (rc : Receipt), k ≤ attempts + 1 →
        (∀ j, j < k → pollBad (poll j) = true) →
        poll k = some rc → receiptHasBlock rc = true →
        waitForTxReceipt poll attempts delay = .ok rc)
    ∧ (∀ poll2 : Nat → Option Receipt,
        (∀ k, k ≤ attempts + 1 → poll k = poll2 k) →
        waitForTxReceipt poll attempts delay = waitForTxReceipt poll2 attempts delay) := by
  refine ⟨?_, ?_, ?_⟩
  · intro hbad
    exact checkForTx_timeout poll attempts delay (attempts + 1) 0 (by omega) (by omega)
      (fun k _ hk2 => hbad k hk2)
  · intro k rc hk hbad hpoll hblock
    exact checkForTx_found poll attempts delay (attempts + 1) 0 k rc (by omega) (by omega)
      hk (fun j _ hj => hbad j hj) hpoll hblock
  · intro poll2 hagree
    exact checkForTx_congr poll poll2 attempts delay (attempts + 1) 0 (by omega) (by omega)
      (fun k _ hk2 => hagree k hk2)

/-- Witness for C9: a chain that never produces a receipt times out after
the budget, and a chain whose very first query returns a mined receipt
resolves with it. -/
theorem c9_witness :
    waitForTxReceipt (fun _ => none) 0 5 = .error .ConfirmationTimeout
    ∧ waitForTxReceipt (fun _ => some { blockNumber := some 3 }) 0 5 =
        .ok { blockNumber := some 3 } :=
  ⟨(c9_waitForTxReceipt_spec (fun _ => none) 0 5).1 (fun k _ => rfl),
   (c9_waitForTxReceipt_spec (fun _ => some { blockNumber := some 3 }) 0 5).2.1 0
     { blockNumber := some 3 } (by omega) (fun j hj => absurd hj (Nat.not_lt_zero j))
     rfl rfl⟩

end Tornado
